import Mathlib

set_option maxRecDepth 4000

/-!
Verification development for `data/shell-completions/zsh/meson-comp-helper.py`,
the script that turns meson `intro-buildoptions.json` introspection data into
zsh completion function definitions.

Strings are modelled as `List Char` (`Str`).  Python `str.replace` is modelled
by `pyReplace` (left-to-right, non-overlapping, for a non-empty pattern), with
explicit fuel so that all definitions reduce in the kernel.
-/

/-- Strings of the Python program, modelled as lists of characters. -/
abbrev Str := List Char

/-- The backslash character. -/
def bsl : Char := '\\'

/-- The single-quote (apostrophe) character, `chr(39)`. -/
def sqc : Char := Char.ofNat 39

/-- Fueled worker for `pyReplace`.  One unit of fuel is spent per character of
the scanned string, so fuel `s.length` always suffices. -/
def pyReplaceGo (o : Char) (os nw : List Char) : Nat → List Char → List Char
  | _, [] => []
  | 0, s => s
  | fuel + 1, c :: cs =>
    if (o :: os).isPrefixOf (c :: cs) then
      nw ++ pyReplaceGo o os nw fuel (cs.drop os.length)
    else
      c :: pyReplaceGo o os nw fuel cs

/-- Model of Python `s.replace(old, new)` for a non-empty pattern
`old = o :: os`: scan left to right, replace non-overlapping occurrences. -/
def pyReplace (o : Char) (os nw : List Char) (s : List Char) : List Char :=
  pyReplaceGo o os nw s.length s

theorem pyReplaceGo_fuel_congr (o : Char) (os nw : List Char) :
    ∀ f₁ f₂ s, s.length ≤ f₁ → s.length ≤ f₂ →
      pyReplaceGo o os nw f₁ s = pyReplaceGo o os nw f₂ s := by
  intro f₁
  induction f₁ with
  | zero =>
    intro f₂ s h₁ _
    have : s = [] := List.eq_nil_of_length_eq_zero (Nat.le_zero.mp h₁)
    subst this
    cases f₂ <;> rfl
  | succ f ih =>
    intro f₂ s h₁ h₂
    cases s with
    | nil => cases f₂ <;> rfl
    | cons c cs =>
      cases f₂ with
      | zero => exact absurd h₂ (by simp)
      | succ f₂' =>
        simp only [pyReplaceGo]
        by_cases hp : ((o :: os).isPrefixOf (c :: cs) : Bool)
        · rw [if_pos hp, if_pos hp]
          have hd : (cs.drop os.length).length ≤ f := by
            have := List.length_drop os.length cs
            simp only [List.length_cons] at h₁
            omega
          have hd₂ : (cs.drop os.length).length ≤ f₂' := by
            have := List.length_drop os.length cs
            simp only [List.length_cons] at h₂
            omega
          rw [ih f₂' _ hd hd₂]
        · rw [if_neg hp, if_neg hp]
          have hc : cs.length ≤ f := by simp only [List.length_cons] at h₁; omega
          have hc₂ : cs.length ≤ f₂' := by simp only [List.length_cons] at h₂; omega
          rw [ih f₂' _ hc hc₂]

theorem pyReplace_nil (o : Char) (os nw : List Char) :
    pyReplace o os nw [] = [] := rfl

theorem pyReplace_cons (o : Char) (os nw : List Char) (c : Char) (cs : List Char) :
    pyReplace o os nw (c :: cs) =
      if (o :: os).isPrefixOf (c :: cs) then
        nw ++ pyReplace o os nw (cs.drop os.length)
      else
        c :: pyReplace o os nw cs := by
  show pyReplaceGo o os nw (cs.length + 1) (c :: cs) = _
  simp only [pyReplaceGo]
  by_cases hp : ((o :: os).isPrefixOf (c :: cs) : Bool)
  · rw [if_pos hp, if_pos hp]
    congr 1
    exact pyReplaceGo_fuel_congr o os nw cs.length _ _
      (by have := List.length_drop os.length cs; omega) (le_refl _)
  · rw [if_neg hp, if_neg hp]
    rfl

/-- Replacement of a single-character pattern steps one character at a time. -/
theorem pyReplace_single (o : Char) (nw : List Char) (c : Char) (cs : List Char) :
    pyReplace o [] nw (c :: cs) =
      if c = o then nw ++ pyReplace o [] nw cs else c :: pyReplace o [] nw cs := by
  rw [pyReplace_cons]
  simp only [List.isPrefixOf, List.length_nil, List.drop_zero, Bool.and_true]
  by_cases h : c = o
  · subst h
    simp
  · rw [if_neg, if_neg h]
    simp [beq_iff_eq]
    exact fun hh => absurd hh.symm h

/-- Colon-escaping rule A from the source:
`s.replace(':', chr(92) + ':').replace(chr(92)*2 + ':', chr(92) + ':')`. -/
def fsemic (s : Str) : Str :=
  pyReplace bsl [bsl, ':'] [bsl, ':'] (pyReplace ':' [] [bsl, ':'] s)

/-- Colon-escaping rule B from the source:
`s.replace(':', chr(92)*2 + ':')` (each colon becomes backslash backslash colon). -/
def dsemic (s : Str) : Str :=
  pyReplace ':' [] [bsl, bsl, ':'] s

/-- The first replacement layer of `fsemic`: `s.replace(':', chr(92) + ':')`. -/
def escA (s : Str) : Str := pyReplace ':' [] [bsl, ':'] s

/-- The second replacement layer of `fsemic`:
`s.replace(chr(92)*2 + ':', chr(92) + ':')`. -/
def escB (s : Str) : Str := pyReplace bsl [bsl, ':'] [bsl, ':'] s

theorem fsemic_eq_escB_escA (s : Str) : fsemic s = escB (escA s) := rfl

theorem escA_nil : escA [] = [] := rfl

theorem escA_colon (t : Str) : escA (':' :: t) = bsl :: ':' :: escA t := by
  rw [escA, pyReplace_single, if_pos rfl]
  rfl

theorem escA_other {c : Char} (h : c ≠ ':') (t : Str) :
    escA (c :: t) = c :: escA t := by
  rw [escA, pyReplace_single, if_neg h]
  rfl

/-- The output of the first layer never starts with a colon. -/
theorem escA_shape (t : Str) :
    escA t = [] ∨ ∃ c u, escA t = c :: u ∧ c ≠ ':' := by
  cases t with
  | nil => exact Or.inl rfl
  | cons c t =>
    by_cases hc : c = ':'
    · subst hc
      refine Or.inr ⟨bsl, ':' :: escA t, escA_colon t, ?_⟩
      decide
    · exact Or.inr ⟨c, escA t, escA_other hc t, hc⟩

theorem escB_nil : escB [] = [] := rfl

theorem escB_pat (t : Str) :
    escB (bsl :: bsl :: ':' :: t) = bsl :: ':' :: escB t := by
  rw [escB, pyReplace_cons, if_pos]
  · rfl
  · simp [List.isPrefixOf]

theorem escB_cons_ne {c : Char} (h : c ≠ bsl) (cs : Str) :
    escB (c :: cs) = c :: escB cs := by
  rw [escB, pyReplace_cons, if_neg]
  · rfl
  · simp only [List.isPrefixOf, Bool.and_eq_true, beq_iff_eq]
    intro hh
    exact h hh.1.symm

theorem escB_two {c : Char} (h : c ≠ bsl) (cs : Str) :
    escB (bsl :: c :: cs) = bsl :: escB (c :: cs) := by
  rw [escB, pyReplace_cons, if_neg]
  · rfl
  · simp only [List.isPrefixOf, Bool.and_eq_true, beq_iff_eq]
    intro hh
    exact h hh.2.1.symm

theorem escB_three {c : Char} (h : c ≠ ':') (cs : Str) :
    escB (bsl :: bsl :: c :: cs) = bsl :: escB (bsl :: c :: cs) := by
  rw [escB, pyReplace_cons, if_neg]
  · rfl
  · simp only [List.isPrefixOf, Bool.and_eq_true, beq_iff_eq]
    intro hh
    exact h hh.2.2.1.symm

theorem escB_single : escB [bsl] = [bsl] := by
  rw [escB, pyReplace_cons, if_neg]
  · rfl
  · simp [List.isPrefixOf]

theorem fsemic_nil : fsemic [] = [] := rfl

theorem fsemic_colon (t : Str) : fsemic (':' :: t) = bsl :: ':' :: fsemic t := by
  rw [fsemic_eq_escB_escA, escA_colon, escB_two (by decide), escB_cons_ne (by decide)]
  rfl

theorem fsemic_bscolon (t : Str) :
    fsemic (bsl :: ':' :: t) = bsl :: ':' :: fsemic t := by
  rw [fsemic_eq_escB_escA, escA_other (by decide) (':' :: t), escA_colon, escB_pat]
  rfl

theorem fsemic_single_bs : fsemic [bsl] = [bsl] := by
  rw [fsemic_eq_escB_escA, escA_other (by decide) [], escA_nil, escB_single]

theorem fsemic_bsbs (t : Str) :
    fsemic (bsl :: bsl :: t) = bsl :: fsemic (bsl :: t) := by
  rw [fsemic_eq_escB_escA, escA_other (by decide) (bsl :: t),
    escA_other (by decide) t, fsemic_eq_escB_escA, escA_other (by decide) t]
  rcases escA_shape t with h | ⟨c, u, h, hc⟩
  · rw [h, escB_single]
    decide
  · rw [h, escB_three hc]

theorem fsemic_bs_other {c : Char} (h1 : c ≠ ':') (h2 : c ≠ bsl) (t : Str) :
    fsemic (bsl :: c :: t) = bsl :: c :: fsemic t := by
  rw [fsemic_eq_escB_escA, escA_other (by decide) (c :: t), escA_other h1 t,
    escB_two h2, escB_cons_ne h2]
  rfl

theorem fsemic_other {c : Char} (h1 : c ≠ ':') (h2 : c ≠ bsl) (t : Str) :
    fsemic (c :: t) = c :: fsemic t := by
  rw [fsemic_eq_escB_escA, escA_other h1 t, escB_cons_ne h2]
  rfl

/-- The image of a string starting with a backslash starts with a backslash. -/
theorem fsemic_bs_head (t : Str) : ∃ u, fsemic (bsl :: t) = bsl :: u := by
  cases t with
  | nil => exact ⟨[], fsemic_single_bs⟩
  | cons c t =>
    by_cases hc : c = ':'
    · subst hc
      exact ⟨':' :: fsemic t, fsemic_bscolon t⟩
    · by_cases hb : c = bsl
      · subst hb
        exact ⟨fsemic (bsl :: t), fsemic_bsbs t⟩
      · exact ⟨c :: fsemic t, fsemic_bs_other hc hb t⟩

/-- Escaping rule A is idempotent. -/
theorem fsemic_idem (s : Str) : fsemic (fsemic s) = fsemic s := by
  have key : ∀ n s, List.length s ≤ n → fsemic (fsemic s) = fsemic s := by
    intro n
    induction n with
    | zero =>
      intro s h
      have hs : s = [] := List.eq_nil_of_length_eq_zero (Nat.le_zero.mp h)
      subst hs
      rfl
    | succ n ih =>
      intro s h
      cases s with
      | nil => rfl
      | cons c t =>
        simp only [List.length_cons] at h
        by_cases hc : c = ':'
        · subst hc
          rw [fsemic_colon, fsemic_bscolon, ih t (by omega)]
        · by_cases hb : c = bsl
          · subst hb
            cases t with
            | nil => rw [fsemic_single_bs, fsemic_single_bs]
            | cons c2 t2 =>
              simp only [List.length_cons] at h
              by_cases hc2 : c2 = ':'
              · subst hc2
                rw [fsemic_bscolon, fsemic_bscolon, ih t2 (by omega)]
              · by_cases hb2 : c2 = bsl
                · subst hb2
                  obtain ⟨u, hu⟩ := fsemic_bs_head t2
                  have hinner : fsemic (bsl :: u) = fsemic (bsl :: t2) := by
                    rw [← hu]
                    exact ih (bsl :: t2) (by simp; omega)
                  rw [fsemic_bsbs, hu, fsemic_bsbs, hinner, hu]
                · rw [fsemic_bs_other hc2 hb2, fsemic_bs_other hc2 hb2,
                    ih t2 (by omega)]
          · rw [fsemic_other hc hb, fsemic_other hc hb, ih t (by omega)]
  exact key s.length s (le_refl _)

/-- Rule B replaces every colon by backslash backslash colon and leaves all
other characters unchanged. -/
theorem dsemic_join (s : Str) :
    dsemic s = (s.map (fun c => if c = ':' then [bsl, bsl, ':'] else [c])).flatten := by
  induction s with
  | nil => rfl
  | cons c t ih =>
    rw [dsemic, pyReplace_single, List.map_cons, List.flatten_cons, ← dsemic, ih]
    by_cases hc : c = ':'
    · rw [if_pos hc, if_pos hc]
    · rw [if_neg hc, if_neg hc]
      rfl

/-- Characters that `shlex.quote` leaves unquoted: ASCII letters and digits
plus underscore, at-sign, percent, plus, equals, colon, comma, dot, slash and
dash (the complement of shlex's `_find_unsafe` regex with `re.ASCII`). -/
def safeChar (c : Char) : Bool :=
  c.isAlphanum || c ∈ ['_', '@', '%', '+', '=', ':', ',', '.', '/', '-']

/-- Model of `shlex.quote`: empty string becomes two single quotes, strings of
safe characters are returned unchanged, and anything else is wrapped in single
quotes with every embedded single quote replaced by the five characters
quote-doublequote-quote-doublequote-quote. -/
def quote (s : Str) : Str :=
  if s = [] then [sqc, sqc]
  else if s.all safeChar then s
  else sqc :: (pyReplace sqc [] [sqc, '"', sqc, '"', sqc] s ++ [sqc])

/-- Model of `zsh_tag` from the source: every character that is not an ASCII
alphanumeric is replaced by a dash. -/
def zsh_tag (k : Str) : Str :=
  k.map (fun c => if c.toNat < 0x80 && c.isAlphanum then c else '-')

/-- Fueled little-endian base-`b` digit list of a natural number (empty for 0).
One unit of fuel is consumed per digit, so fuel `n` always suffices for `b ≥ 2`. -/
def digitsRevGo (b : Nat) : Nat → Nat → List Nat
  | _, 0 => []
  | 0, _ + 1 => []
  | fuel + 1, n + 1 => ((n + 1) % b) :: digitsRevGo b fuel ((n + 1) / b)

/-- Big-endian base-`b` digit list of a natural number (empty for 0). -/
def natDigits (b n : Nat) : List Nat := (digitsRevGo b n n).reverse

/-- The character of a single digit value below 10. -/
def digitChar (d : Nat) : Char := Char.ofNat (48 + d)

/-- Decimal rendering of a natural number, as Python `str`/`format` produce it. -/
def natDec (n : Nat) : Str := if n = 0 then ['0'] else (natDigits 10 n).map digitChar

/-- Decimal rendering of an integer, as Python `'{}'.format(int(v))` produces it. -/
def intDec (n : Int) : Str := if n < 0 then '-' :: natDec n.natAbs else natDec n.toNat

/-- Model of `oct(i)[2:]` for a non-negative `i`: the octal digit string. -/
def pyOctStr (n : Nat) : Str := if n = 0 then ['0'] else (natDigits 8 n).map digitChar

/-- Model of Python `int` applied to a string of decimal digits. -/
def pyDecParse (ds : Str) : Nat := ds.foldl (fun a c => a * 10 + (c.toNat - 48)) 0

/-- Zero padding to width 3, as the format spec `{:03}` does
(`List.replicate` yields `[]` when the string is already long enough). -/
def padZeros3 (ds : Str) : Str := List.replicate (3 - ds.length) '0' ++ ds

/-- Model of `'{:03}'.format(n)` for a natural number. -/
def pyFormat03 (n : Nat) : Str := padZeros3 (natDec n)

/-- Model of `c_style_octal` from the source: `'0{:03}'.format(int(oct(i)[2:]))`.
Negative arguments make the Python original raise inside `int`; that failure is
modelled at the call site in `generate_hint`. -/
def c_style_octal (i : Nat) : Str := '0' :: pyFormat03 (pyDecParse (pyOctStr i))

/-- JSON-ish values an option's `value` field may hold.  JSON numbers are
modelled as integers; floats and arrays are omitted (no claim involves them). -/
inductive JValue where
  | jnull : JValue
  | jbool : Bool → JValue
  | jint : Int → JValue
  | jstr : Str → JValue
deriving DecidableEq

/-- Python truthiness of a `JValue`, as used by `'true' if v else 'false'`. -/
def JValue.truthy : JValue → Bool
  | .jnull => false
  | .jbool b => b
  | .jint n => !(n == 0)
  | .jstr s => !s.isEmpty

/-- A raised Python exception, modelled by the list of lines that
`traceback.format_exception_only` would render for it (each line ends with a
newline character, which `emit_message_on_exception` strips again). -/
structure Exc where
  lines : List Str
deriving DecidableEq

/-- A `ValueError` with the given message. -/
def valueError (msg : Str) : Exc := ⟨[("ValueError: ").toList ++ msg ++ ['\n']]⟩

/-- A `TypeError` with the given message. -/
def typeError (msg : Str) : Exc := ⟨[("TypeError: ").toList ++ msg ++ ['\n']]⟩

/-- One raw option record of the `intro-buildoptions.json` input.  The field
`sect` models the JSON key `section` (`section` is a Lean keyword).  Modelling
records as a structure asserts the keys generation reads are present; a record
missing one of them would take the generic failure path of `main`. -/
structure OptEntry where
  name : Str
  type : Str
  value : JValue
  choices : Option (List Str)
  sect : Str
  description : Str
deriving DecidableEq

/-- Model of `generate_choices`: combo options yield their declared choice list
(`optentry.get('choices', [])`, defaulting to the empty list), boolean options
the fixed pair `('false', 'true')`, and everything else `None`. -/
def generate_choices (o : OptEntry) : Option (List Str) :=
  if o.type = ("combo").toList then some (o.choices.getD [])
  else if o.type = ("boolean").toList then
    some [("false").toList, ("true").toList]
  else none

/-- Model of `simple_hint`: `'<{}>'.format(i)`. -/
def simple_hint (s : Str) : Str := '<' :: s ++ ['>']

/-- Model of Python `int` on a string: an optional minus sign followed by
decimal digits (surrounding whitespace and a leading plus are not modelled;
no claim depends on them).  Anything else raises `ValueError`. -/
def pyIntStr (s : Str) : Except Exc Int :=
  match s with
  | '-' :: ds =>
    if ds ≠ [] ∧ ds.all (fun c => c.isDigit) then .ok (-(pyDecParse ds : Int))
    else .error (valueError (("invalid literal for int() with base 10").toList))
  | ds =>
    if ds ≠ [] ∧ ds.all (fun c => c.isDigit) then .ok (pyDecParse ds)
    else .error (valueError (("invalid literal for int() with base 10").toList))

/-- Model of Python `int(v)` on a `JValue` (booleans are integers in Python). -/
def pyIntOf (v : JValue) : Except Exc Int :=
  match v with
  | .jint n => .ok n
  | .jbool b => .ok (if b then 1 else 0)
  | .jstr s => pyIntStr s
  | .jnull => .error (typeError (("int() argument must not be None").toList))

/-- Hex digit character (lowercase), for `repr`'s escapes. -/
def hexDigit (d : Nat) : Char := if d < 10 then digitChar d else Char.ofNat (87 + d)

/-- The delimiter Python `repr` picks for a string: double quotes when the
string contains a single quote but no double quote, single quotes otherwise. -/
def pyStrReprDelim (s : Str) : Char :=
  if s.contains sqc && !(s.contains '"') then '"' else sqc

/-- Escape of one character inside a `repr`'d string literal. -/
def pyReprEscape (delim c : Char) : Str :=
  if c = bsl then [bsl, bsl]
  else if c = delim then [bsl, delim]
  else if c = '\n' then [bsl, 'n']
  else if c = '\t' then [bsl, 't']
  else if c = '\x0d' then [bsl, 'r']
  else if c.toNat < 32 || c.toNat == 127 then
    [bsl, 'x', hexDigit (c.toNat / 16), hexDigit (c.toNat % 16)]
  else [c]

/-- Model of Python `repr` on the `JValue` domain (non-ASCII characters are
assumed printable and kept verbatim). -/
def pyRepr : JValue → Str
  | .jnull => ("None").toList
  | .jbool true => ("True").toList
  | .jbool false => ("False").toList
  | .jint n => intDec n
  | .jstr s =>
    let d := pyStrReprDelim s
    d :: (s.map (pyReprEscape d)).flatten ++ [d]

/-- Model of `generate_hint`: booleans render their truthiness, the option
named `install_umask` renders its value as a C-style octal literal, integer
options render `int(v)` in decimal, and everything else renders `repr(v)`; all
wrapped in angle brackets by `simple_hint`.  The `Except` layer models the
exceptions `oct`/`int` raise on unsuitable values. -/
def generate_hint (o : OptEntry) : Except Exc Str :=
  if o.type = ("boolean").toList then
    .ok (simple_hint (if o.value.truthy then ("true").toList else ("false").toList))
  else if o.name = ("install_umask").toList then
    match o.value with
    | .jint n =>
      if n < 0 then
        .error (valueError (("invalid literal for int() with base 10").toList))
      else .ok (simple_hint (c_style_octal n.toNat))
    | .jbool b => .ok (simple_hint (c_style_octal (if b then 1 else 0)))
    | _ => .error (typeError (("oct() argument must be an integer").toList))
  else if o.type = ("integer").toList then
    match pyIntOf o.value with
    | .ok m => .ok (simple_hint (intDec m))
    | .error e => .error e
  else .ok (simple_hint (pyRepr o.value))

/-- Model of `generate_compadd_choices`: the two generated lines declaring
`descr` and either a `_wanted ... compadd` offering the choice values or a
`_message` displaying only the description.  The description is quoted with
`shlex.quote`; the displayed description uses zsh's `(qqq)` expansion of the
`descr` variable with every percent doubled. -/
def generate_compadd_choices (o : OptEntry) : Str :=
  let decl := ("descr=").toList ++ quote o.description
  let value_descr := ("$\x7b(qqq)descr//\\%/%%\x7d").toList ++
    quote ((" (").toList ++ o.type ++ (")").toList)
  let compadd :=
    match generate_choices o with
    | some cs =>
      List.intercalate ((" ").toList)
        [("_wanted").toList, ("-V").toList, ("build-option-values").toList,
         ("expl").toList, value_descr, ("compadd -").toList,
         List.intercalate ((" ").toList) (cs.map quote)]
    | none =>
      List.intercalate ((" ").toList)
        [("_message").toList, ("-e").toList, ("build-option-values").toList,
         value_descr]
  ("    ").toList ++ decl ++ ("\n    ").toList ++ compadd

/-- The `case` branch stored in `switch_entries[name]` for one option: the
pattern line interpolates the raw option name between plain double quotes. -/
def switchEntry (opt : OptEntry) : Str :=
  List.intercalate (("\n").toList)
    [("  (\"").toList ++ opt.name ++ ("\")").toList,
     generate_compadd_choices opt,
     ("  ;;").toList]

/-- Model of `d.setdefault(k, []); d[k].append(v)` on an insertion-ordered
dict represented as an association list with unique keys. -/
def dictAppend (d : List (Str × List Str)) (k : Str) (v : Str) :
    List (Str × List Str) :=
  match d with
  | [] => [(k, [v])]
  | (k', vs) :: rest =>
    if k' = k then (k', vs ++ [v]) :: rest else (k', vs) :: dictAppend rest k v

/-- Model of `d[k] = v` on an insertion-ordered dict: an existing key keeps
its position and gets the new value, a new key is appended at the end. -/
def dictSet (d : List (Str × Str)) (k v : Str) : List (Str × Str) :=
  match d with
  | [] => [(k, v)]
  | (k', v') :: rest =>
    if k' = k then (k', v) :: rest else (k', v') :: dictSet rest k v

/-- The accumulation loop of `complete_build_options` (source lines 101-114):
one pass over the records building `by_section` (quoted `_describe` specs,
grouped by section) and `switch_entries` (one `case` branch per name,
last-write-wins). -/
def buildTables : List OptEntry → List (Str × List Str) → List (Str × Str) →
    Except Exc (List (Str × List Str) × List (Str × Str))
  | [], by_section, switch_entries => .ok (by_section, switch_entries)
  | opt :: rest, by_section, switch_entries =>
    match generate_hint opt with
    | .error e => .error e
    | .ok hint =>
      buildTables rest
        (dictAppend by_section opt.sect
          (quote (fsemic opt.name ++ ':' :: fsemic (opt.description ++ ' ' :: hint))))
        (dictSet switch_entries opt.name (switchEntry opt))

/-- Model of `user_first`: pop the `user` key, if present, to the front; the
remaining items keep their insertion order.  Keys are unique by construction,
so removing the first `user` entry is exactly `dict.pop`. -/
def user_first (d : List (Str × List Str)) : List (Str × List Str) :=
  match List.lookup (("user").toList) d with
  | some u => ((("user").toList), u) :: d.eraseP (fun p => p.1 == ("user").toList)
  | none => d

/-- Model of `complete_build_options`: build the two tables, reorder the
sections user-first, and render the two zsh function definitions. -/
def complete_build_options (i_data : List OptEntry) : Except Exc Str :=
  match buildTables i_data [] [] with
  | .error e => .error e
  | .ok (by_section, switch_entries) =>
    let pairs := user_first by_section
    let alt_decls := pairs.map (fun p =>
      ("  local -a __ndescgroup_").toList ++ zsh_tag p.1 ++ ("=(\n    ").toList ++
        List.intercalate (("\n    ").toList) p.2 ++ ("\n  )").toList)
    let alt_words := pairs.map (fun p =>
      quote (zsh_tag p.1 ++ ("-options:").toList ++ p.1 ++
        (" option:(( \"$\x7b(@)__ndescgroup_").toList ++ zsh_tag p.1 ++
        ("\x7d\" ))").toList))
    let fn1 := List.intercalate (("\n").toList)
      [("__meson_project_buildoptions() \x7b").toList,
       ("  # This function loops over tag labels itself.").toList,
       List.intercalate (("\n").toList) alt_decls,
       ("  local -a alternative_argv=( \"$@\" )").toList,
       ("  _alternative -O alternative_argv ").toList ++
         List.intercalate ((" ").toList) alt_words,
       ("\x7d\n").toList]
    let fn2 := List.intercalate (("\n").toList)
      [("__meson_project_buildoption_choices() \x7b").toList,
       ("  # This function loops over tag labels itself.").toList,
       ("  local m_optname=\"$1\"").toList,
       ("  local descr").toList,
       ("  case \"$m_optname\" in").toList,
       List.intercalate (("\n").toList) (switch_entries.map (fun p => p.2)),
       ("  *)").toList,
       ("    _message \"unknown option; cannot offer choices\"  ;;").toList,
       ("  esac").toList,
       ("\x7d\n").toList]
    .ok (List.intercalate (("\n").toList) [fn1, fn2])

/-- State of the argument scan in `_getopts`. -/
structure ScanState where
  mode : Option Str
  builddir : Option Str
  posopts : Nat
deriving DecidableEq

/-- The pure argument scan of `_getopts` (source lines 186-193): every
`--`-prefixed argument overwrites the mode, the first other argument becomes
the build directory and later ones are ignored. -/
def scanArgs (argv : List Str) : ScanState :=
  argv.foldl
    (fun st i =>
      if (("--").toList).isPrefixOf i then
        { st with mode := some (i.drop 2) }
      else if st.posopts > 0 then st
      else { st with builddir := some i, posopts := st.posopts + 1 })
    ⟨none, none, 0⟩

/-- Model of `path_from_builddir`: `os.path.join` of the three parts is
modelled as slash-joining. -/
def path_from_builddir (builddir mode : Str) : Str :=
  builddir ++ ("/meson-info/intro-").toList ++ mode ++ (".json").toList

/-- The validation part of `_getopts`: scan the arguments and raise a
`ValueError` for a missing or unknown completion mode.  Stream opening
happens only after this validation; it is modelled in `mainPipeline`. -/
def _getopts (argv : List Str) : Except Exc (Str × Option Str) :=
  let st := scanArgs argv
  match st.mode with
  | none => .error (valueError (("completion mode is not specified").toList))
  | some m =>
    if m = ("buildoptions").toList then .ok (m, st.builddir)
    else .error (valueError (("unknown completion mode: ").toList ++ m))

/-- Where the input is read from: standard input or the introspection file
under the build directory. -/
inductive InputSource where
  | stdin : InputSource
  | file : Str → InputSource
deriving DecidableEq

/-- The stream selection of `_getopts` (source lines 198-202). -/
def inputSourceOf (builddir : Option Str) (mode : Str) : InputSource :=
  match builddir with
  | none => .stdin
  | some b => if b = ("-").toList then .stdin else .file (path_from_builddir b mode)

/-- Model of Python `str.rstrip()`: drop trailing ASCII whitespace. -/
def pyRstrip (s : Str) : Str :=
  (s.reverse.dropWhile
    (fun c => c ∈ [' ', '\t', '\n', '\x0d', '\x0b', '\x0c'])).reverse

/-- Model of `emit_message_on_exception`: print two stand-in function
definitions whose bodies are one `_message` statement per diagnostic line,
each line quoted with `shlex.quote` (the trailing newline comes from `print`). -/
def emit_message_on_exception (e : Exc) : Str :=
  let msgs := e.lines.map (fun l => quote (("cannot complete: ").toList ++ pyRstrip l))
  let body := List.intercalate (("\n").toList)
    (msgs.map (fun m => ("  _message ").toList ++ m))
  List.intercalate (("\n").toList)
    [("__meson_project_buildoptions () \x7b").toList, body, ("\x7d").toList,
     ("__meson_project_buildoption_choices () \x7b").toList, body,
     ("\x7d").toList] ++ [newline] where
  newline : Char := '\n'

/-- The fallible part of `main`: argument validation, then reading and JSON
parsing of the selected input (the external collaborator, passed in as
`world`), then generation.  Mirrors the body of the `try` block. -/
def mainPipeline (world : InputSource → Except Exc (List OptEntry))
    (argv : List Str) : Except Exc Str :=
  match _getopts argv with
  | .error e => .error e
  | .ok (mode, builddir) =>
    match world (inputSourceOf builddir mode) with
    | .error e => .error e
    | .ok jd => complete_build_options jd

/-- Model of `main`: on success print the generated functions and return 0;
on any raised failure print the diagnostic stubs and return 1.  The first
component is everything written to standard output, the second the exit
status. -/
def mainModel (world : InputSource → Except Exc (List OptEntry))
    (argv : List Str) : Str × Nat :=
  match mainPipeline world argv with
  | .ok out => (out ++ [newline], 0)
  | .error e => (emit_message_on_exception e, 1) where
  newline : Char := '\n'

theorem digitsRevGo_zero (b fuel : Nat) : digitsRevGo b fuel 0 = [] := by
  cases fuel <;> rfl

theorem digitsRevGo_eq (b : Nat) (hb : 2 ≤ b) :
    ∀ fuel n, n ≤ fuel → digitsRevGo b fuel n = Nat.digits b n := by
  intro fuel
  induction fuel with
  | zero =>
    intro n h
    have : n = 0 := Nat.le_zero.mp h
    subst this
    rw [digitsRevGo_zero, Nat.digits_zero]
  | succ f ih =>
    intro n h
    cases n with
    | zero => rw [digitsRevGo_zero, Nat.digits_zero]
    | succ m =>
      rw [Nat.digits_of_two_le_of_pos hb (Nat.succ_pos m)]
      show ((m + 1) % b) :: digitsRevGo b f ((m + 1) / b) = _
      congr 1
      apply ih
      have : (m + 1) / b < m + 1 := Nat.div_lt_self (Nat.succ_pos m) (by omega)
      omega

theorem natDigits_eq (b n : Nat) (hb : 2 ≤ b) :
    natDigits b n = (Nat.digits b n).reverse := by
  rw [natDigits, digitsRevGo_eq b hb n n (le_refl n)]

theorem digitChar_toNat {d : Nat} (h : d < 10) : (digitChar d).toNat = 48 + d := by
  interval_cases d <;> decide

theorem foldl_horner (vs : List Nat) (acc : Nat) :
    vs.foldl (fun a d => a * 10 + d) acc =
      acc * 10 ^ vs.length + Nat.ofDigits 10 vs.reverse := by
  induction vs generalizing acc with
  | nil => simp [Nat.ofDigits]
  | cons v vs ih =>
    rw [List.foldl_cons, ih (acc * 10 + v), List.reverse_cons, Nat.ofDigits_append]
    simp only [Nat.ofDigits_singleton, List.length_cons, List.length_reverse]
    ring

theorem pyDecParse_map_digitChar (vs : List Nat) (acc : Nat)
    (hv : ∀ d ∈ vs, d < 10) :
    (vs.map digitChar).foldl (fun a c => a * 10 + (c.toNat - 48)) acc =
      vs.foldl (fun a d => a * 10 + d) acc := by
  induction vs generalizing acc with
  | nil => rfl
  | cons v vs ih =>
    simp only [List.map_cons, List.foldl_cons]
    rw [digitChar_toNat (hv v (List.mem_cons_self v vs))]
    have : 48 + v - 48 = v := by omega
    rw [this]
    exact ih _ (fun d hd => hv d (List.mem_cons_of_mem v hd))

theorem pyDecParse_digits (vs : List Nat) (hv : ∀ d ∈ vs, d < 10) :
    pyDecParse (vs.map digitChar) = Nat.ofDigits 10 vs.reverse := by
  rw [pyDecParse, pyDecParse_map_digitChar vs 0 hv, foldl_horner]
  simp

/-- The decimal parse-and-reformat round trip inside `c_style_octal` is the
identity on the octal digit string: the generated hint really is the octal
rendering of the value, zero padded to width three, after a leading zero. -/
theorem c_style_octal_eq (i : Nat) :
    c_style_octal i = '0' :: padZeros3 (pyOctStr i) := by
  rw [c_style_octal, pyFormat03]
  congr 1
  by_cases h : i = 0
  · subst h
    rfl
  · have hL : Nat.digits 8 i ≠ [] := Nat.digits_ne_nil_iff_ne_zero.mpr h
    have hlt : ∀ d ∈ Nat.digits 8 i, d < 10 := by
      intro d hd
      have : d < 8 := Nat.digits_lt_base (by norm_num) hd
      omega
    have hoct : pyOctStr i = (Nat.digits 8 i).reverse.map digitChar := by
      rw [pyOctStr, if_neg h, natDigits_eq 8 i (by norm_num)]
    have hparse : pyDecParse (pyOctStr i) = Nat.ofDigits 10 (Nat.digits 8 i) := by
      rw [hoct, pyDecParse_digits _ (by
        intro d hd
        exact hlt d (List.mem_reverse.mp hd))]
      rw [List.reverse_reverse]
    have hdig : Nat.digits 10 (Nat.ofDigits 10 (Nat.digits 8 i)) = Nat.digits 8 i := by
      apply Nat.digits_ofDigits 10 (by norm_num) _ hlt
      intro hne
      exact Nat.getLast_digit_ne_zero 8 h
    have hm : Nat.ofDigits 10 (Nat.digits 8 i) ≠ 0 := by
      intro h0
      rw [h0, Nat.digits_zero] at hdig
      exact hL hdig.symm
    rw [hparse, natDec, if_neg hm, natDigits_eq 10 _ (by norm_num), hdig, hoct]

/-- First-seen deduplication starting from an already-collected prefix. -/
def firstSeenFrom (init : List Str) (xs : List Str) : List Str :=
  xs.foldl (fun acc s => if s ∈ acc then acc else acc ++ [s]) init

/-- The distinct values of a list in order of first appearance. -/
def firstSeen (xs : List Str) : List Str := firstSeenFrom [] xs

theorem firstSeenFrom_cons (init : List Str) (x : Str) (xs : List Str) :
    firstSeenFrom init (x :: xs) =
      firstSeenFrom (if x ∈ init then init else init ++ [x]) xs := rfl

theorem firstSeenFrom_nodup :
    ∀ (xs init : List Str), init.Nodup → (firstSeenFrom init xs).Nodup := by
  intro xs
  induction xs with
  | nil => intro init h; exact h
  | cons x xs ih =>
    intro init h
    rw [firstSeenFrom_cons]
    by_cases hx : x ∈ init
    · rw [if_pos hx]
      exact ih init h
    · rw [if_neg hx]
      exact ih (init ++ [x]) (by simp [List.nodup_append, h, hx])

theorem dictAppend_keys (d : List (Str × List Str)) (k : Str) (v : Str) :
    (dictAppend d k v).map Prod.fst =
      if k ∈ d.map Prod.fst then d.map Prod.fst else d.map Prod.fst ++ [k] := by
  induction d with
  | nil => simp [dictAppend]
  | cons p rest ih =>
    obtain ⟨k', vs⟩ := p
    by_cases h : k' = k
    · subst h
      simp [dictAppend]
    · simp only [dictAppend, if_neg h, List.map_cons]
      rw [ih]
      by_cases hm : k ∈ rest.map Prod.fst
      · rw [if_pos hm, if_pos (List.mem_cons_of_mem _ hm)]
      · rw [if_neg hm, if_neg (by
          intro hc
          rcases List.mem_cons.mp hc with h1 | h2
          · exact h h1.symm
          · exact hm h2)]
        simp

theorem dictSet_keys (d : List (Str × Str)) (k v : Str) :
    (dictSet d k v).map Prod.fst =
      if k ∈ d.map Prod.fst then d.map Prod.fst else d.map Prod.fst ++ [k] := by
  induction d with
  | nil => simp [dictSet]
  | cons p rest ih =>
    obtain ⟨k', v'⟩ := p
    by_cases h : k' = k
    · subst h
      simp [dictSet]
    · simp only [dictSet, if_neg h, List.map_cons]
      rw [ih]
      by_cases hm : k ∈ rest.map Prod.fst
      · rw [if_pos hm, if_pos (List.mem_cons_of_mem _ hm)]
      · rw [if_neg hm, if_neg (by
          intro hc
          rcases List.mem_cons.mp hc with h1 | h2
          · exact h h1.symm
          · exact hm h2)]
        simp

theorem dictSet_lookup (d : List (Str × Str)) (k v a : Str) :
    List.lookup a (dictSet d k v) = if a = k then some v else List.lookup a d := by
  induction d with
  | nil =>
    by_cases ha : a = k
    · subst ha
      simp [dictSet, List.lookup]
    · simp [dictSet, List.lookup, beq_false_of_ne ha, ha]
  | cons p rest ih =>
    obtain ⟨k', v'⟩ := p
    by_cases h : k' = k
    · subst h
      by_cases ha : a = k'
      · subst ha
        simp [dictSet, List.lookup]
      · simp [dictSet, List.lookup, beq_false_of_ne ha, ha]
    · by_cases ha : a = k'
      · subst ha
        simp [dictSet, List.lookup, h]
      · simp [dictSet, List.lookup, h, beq_false_of_ne ha, ih]

theorem dictAppend_lookup (d : List (Str × List Str)) (k : Str) (v : Str) (a : Str) :
    List.lookup a (dictAppend d k v) =
      if a = k then some ((List.lookup k d).getD [] ++ [v])
      else List.lookup a d := by
  induction d with
  | nil =>
    by_cases ha : a = k
    · subst ha
      simp [dictAppend, List.lookup]
    · simp [dictAppend, List.lookup, beq_false_of_ne ha, ha]
  | cons p rest ih =>
    obtain ⟨k', vs⟩ := p
    by_cases h : k' = k
    · subst h
      by_cases ha : a = k'
      · subst ha
        simp [dictAppend, List.lookup]
      · simp [dictAppend, List.lookup, beq_false_of_ne ha, ha]
    · by_cases ha : a = k'
      · subst ha
        simp [dictAppend, List.lookup, h]
      · simp [dictAppend, List.lookup, h, beq_false_of_ne ha,
          beq_false_of_ne (Ne.symm h), ih]

theorem buildTables_sections (opts : List OptEntry) :
    ∀ bs se bs' se', buildTables opts bs se = .ok (bs', se') →
      bs'.map Prod.fst =
        firstSeenFrom (bs.map Prod.fst) (opts.map (fun o => o.sect)) := by
  induction opts with
  | nil =>
    intro bs se bs' se' h
    simp only [buildTables, Except.ok.injEq, Prod.mk.injEq] at h
    rw [← h.1]
    rfl
  | cons opt rest ih =>
    intro bs se bs' se' h
    simp only [buildTables] at h
    cases hg : generate_hint opt with
    | error e => rw [hg] at h; cases h
    | ok hint =>
      rw [hg] at h
      have := ih _ _ _ _ h
      rw [this, List.map_cons, firstSeenFrom_cons, dictAppend_keys]

theorem buildTables_names (opts : List OptEntry) :
    ∀ bs se bs' se', buildTables opts bs se = .ok (bs', se') →
      se'.map Prod.fst =
        firstSeenFrom (se.map Prod.fst) (opts.map (fun o => o.name)) := by
  induction opts with
  | nil =>
    intro bs se bs' se' h
    simp only [buildTables, Except.ok.injEq, Prod.mk.injEq] at h
    rw [← h.2]
    rfl
  | cons opt rest ih =>
    intro bs se bs' se' h
    simp only [buildTables] at h
    cases hg : generate_hint opt with
    | error e => rw [hg] at h; cases h
    | ok hint =>
      rw [hg] at h
      have := ih _ _ _ _ h
      rw [this, List.map_cons, firstSeenFrom_cons, dictSet_keys]

theorem buildTables_lookup_name (opts : List OptEntry) :
    ∀ bs se bs' se', buildTables opts bs se = .ok (bs', se') → ∀ nm,
      List.lookup nm se' =
        match (opts.filter (fun o => o.name == nm)).getLast? with
        | some o => some (switchEntry o)
        | none => List.lookup nm se := by
  induction opts with
  | nil =>
    intro bs se bs' se' h nm
    simp only [buildTables, Except.ok.injEq, Prod.mk.injEq] at h
    rw [← h.2]
    rfl
  | cons opt rest ih =>
    intro bs se bs' se' h nm
    simp only [buildTables] at h
    cases hg : generate_hint opt with
    | error e => rw [hg] at h; cases h
    | ok hint =>
      rw [hg] at h
      have hrec := ih _ _ _ _ h nm
      rw [hrec, List.filter_cons]
      by_cases hb : opt.name = nm
      · rw [if_pos (by simp [hb])]
        cases hF : rest.filter (fun o => o.name == nm) with
        | nil =>
          simp only [List.getLast?_singleton]
          rw [dictSet_lookup]
          rw [if_pos hb.symm]
          rfl
        | cons f fs =>
          rw [List.getLast?_cons_cons]
          cases hx : (f :: fs).getLast? with
          | none =>
            exact absurd (List.getLast?_eq_none_iff.mp hx) (by simp)
          | some x => rfl
      · rw [if_neg (by simp [hb])]
        cases hx : rest.filter (fun o => o.name == nm) |>.getLast? with
        | none =>
          simp only []
          rw [dictSet_lookup, if_neg (fun hc => hb hc.symm)]
        | some x => rfl

theorem buildTables_sect_counts (opts : List OptEntry) :
    ∀ bs se bs' se', buildTables opts bs se = .ok (bs', se') → ∀ sec,
      ((List.lookup sec bs').getD []).length =
        ((List.lookup sec bs).getD []).length +
          (opts.filter (fun o => o.sect == sec)).length := by
  induction opts with
  | nil =>
    intro bs se bs' se' h sec
    simp only [buildTables, Except.ok.injEq, Prod.mk.injEq] at h
    rw [← h.1]
    simp
  | cons opt rest ih =>
    intro bs se bs' se' h sec
    simp only [buildTables] at h
    cases hg : generate_hint opt with
    | error e => rw [hg] at h; cases h
    | ok hint =>
      rw [hg] at h
      have hrec := ih _ _ _ _ h sec
      rw [hrec, dictAppend_lookup, List.filter_cons]
      by_cases hs : opt.sect = sec
      · rw [if_pos hs.symm, if_pos (by simp [hs])]
        subst hs
        simp only [Option.getD_some, List.length_append, List.length_singleton,
          List.length_cons, List.length_nil]
        omega
      · rw [if_neg (fun hc => hs hc.symm), if_neg (by simp [hs])]

theorem lookup_none_iff {α : Type} (d : List (Str × α)) (k : Str) :
    List.lookup k d = none ↔ k ∉ d.map Prod.fst := by
  rw [List.lookup_eq_none_iff]
  constructor
  · intro h hc
    obtain ⟨p, hp, hpk⟩ := List.mem_map.mp hc
    exact (bne_iff_ne.mp (h p hp)) hpk.symm
  · intro h p hp
    refine bne_iff_ne.mpr (fun hc => h ?_)
    exact List.mem_map.mpr ⟨p, hp, hc.symm⟩

theorem map_fst_eraseP (d : List (Str × List Str)) (k : Str)
    (hnd : (d.map Prod.fst).Nodup) :
    (d.eraseP (fun p => p.1 == k)).map Prod.fst =
      (d.map Prod.fst).filter (fun s => !(s == k)) := by
  induction d with
  | nil => rfl
  | cons p rest ih =>
    obtain ⟨k', vs⟩ := p
    simp only [List.map_cons, List.nodup_cons] at hnd
    by_cases h : k' = k
    · subst h
      rw [List.eraseP_cons]
      simp only [beq_self_eq_true, cond_true, List.map_cons, List.filter_cons,
        Bool.not_true]
      rw [if_neg (by simp)]
      exact (List.filter_eq_self.mpr (fun s hs => by
        simp only [Bool.not_eq_true']
        exact beq_false_of_ne (fun hc => hnd.1 (hc ▸ hs)))).symm
    · rw [List.eraseP_cons]
      simp only [beq_false_of_ne h, cond_false, List.map_cons, List.filter_cons,
        Bool.not_false]
      rw [if_pos trivial, ih hnd.2]

theorem perm_cons_filter_ne (a : Str) :
    ∀ l : List Str, l.Nodup → a ∈ l →
      (a :: l.filter (fun s => !(s == a))).Perm l := by
  intro l
  induction l with
  | nil =>
    intro _ hin
    cases hin
  | cons x xs ih =>
    intro hnd hin
    simp only [List.nodup_cons] at hnd
    by_cases hx : x = a
    · subst hx
      rw [List.filter_cons]
      simp only [beq_self_eq_true, Bool.not_true]
      rw [if_neg (by simp)]
      rw [List.filter_eq_self.mpr (fun s hs => by
        simp only [Bool.not_eq_true']
        exact beq_false_of_ne (fun hc => hnd.1 (hc ▸ hs)))]
    · have hin' : a ∈ xs := by
        cases List.mem_cons.mp hin with
        | inl hh => exact absurd hh.symm hx
        | inr hh => exact hh
      rw [List.filter_cons]
      simp only [beq_false_of_ne hx, Bool.not_false]
      rw [if_pos trivial]
      exact (List.Perm.swap x a _).trans (List.Perm.cons x (ih hnd.2 hin'))

/-- C2, counterexample: escaping rule B applied to `a:b` does not yield `a::b`
(the code replaces the colon with backslash backslash colon, not with a
doubled colon). -/
theorem c2_dsemic_counterexample :
    ¬ dsemic (("a:b").toList) = ("a::b").toList := by decide

/-- C2, amended: the rule-B escaping function `dsemic` replaces every literal
colon with the three characters backslash backslash colon and leaves all other
characters unchanged; applied to `a:b` it returns the five characters
a backslash backslash colon b. -/
theorem c2_dsemic_amended :
    (∀ s, dsemic s =
      (s.map (fun c => if c = ':' then [bsl, bsl, ':'] else [c])).flatten)
    ∧ dsemic (("a:b").toList) = ['a', bsl, bsl, ':', 'b'] :=
  ⟨dsemic_join, by decide⟩

/-- C3: escaping rule A (`fsemic`) is idempotent, and applied to `a:b` it
yields `a` backslash colon `b` with exactly one backslash before the colon. -/
theorem c3_fsemic_idempotent :
    (∀ s, fsemic (fsemic s) = fsemic s)
    ∧ fsemic (("a:b").toList) = ['a', bsl, ':', 'b'] :=
  ⟨fsemic_idem, by decide⟩

/-- C7: every option record of boolean type gets the choice sequence
`('false', 'true')` in that order, and its hint is `<true>` for the value
`true` and `<false>` for the value `false`. -/
theorem c7_boolean_choices_hint (o : OptEntry) (h : o.type = ("boolean").toList) :
    generate_choices o = some [("false").toList, ("true").toList]
    ∧ (o.value = .jbool true → generate_hint o = .ok (("<true>").toList))
    ∧ (o.value = .jbool false → generate_hint o = .ok (("<false>").toList)) := by
  have hnc : ¬ o.type = ("combo").toList := by
    rw [h]
    decide
  refine ⟨?_, ?_, ?_⟩
  · rw [generate_choices, if_neg hnc, if_pos h]
  · intro hv
    simp only [generate_hint, if_pos h, hv]
    rfl
  · intro hv
    simp only [generate_hint, if_pos h, hv]
    rfl

/-- Boolean demo record for the C7 witness. -/
def c7Demo : OptEntry :=
  ⟨("b1").toList, ("boolean").toList, .jbool true, none, ("user").toList,
    ("d").toList⟩

/-- C7 witness: the theorem instantiated at a concrete boolean record. -/
theorem c7_boolean_choices_hint_witness :
    generate_choices c7Demo = some [("false").toList, ("true").toList]
    ∧ generate_hint c7Demo = .ok (("<true>").toList) := by
  have h := c7_boolean_choices_hint c7Demo rfl
  exact ⟨h.1, h.2.1 rfl⟩

/-- C8: for the option named `install_umask` of non-boolean type with a
non-negative integer value `v`, the hint is the octal digit string of `v`,
zero padded to width three, behind a leading zero digit and wrapped in angle
brackets; in particular value 18 yields exactly `<0022>`. -/
theorem c8_umask_octal_hint (o : OptEntry) (v : Nat)
    (h1 : o.name = ("install_umask").toList)
    (h2 : ¬ o.type = ("boolean").toList)
    (h3 : o.value = .jint (Int.ofNat v)) :
    generate_hint o = .ok (simple_hint ('0' :: padZeros3 (pyOctStr v)))
    ∧ (v = 18 → generate_hint o = .ok (("<0022>").toList)) := by
  have hmain : generate_hint o = .ok (simple_hint (c_style_octal v)) := by
    simp only [generate_hint, if_neg h2, if_pos h1, h3]
    have hnn : ¬ Int.ofNat v < 0 := by
      rw [Int.ofNat_eq_coe]
      exact Int.not_lt.mpr (Int.ofNat_nonneg v)
    rw [if_neg hnn]
    rfl
  constructor
  · rw [hmain, c_style_octal_eq]
  · intro hv
    subst hv
    rw [hmain]
    rfl

/-- Umask demo record for the C8 witness. -/
def c8Demo : OptEntry :=
  ⟨("install_umask").toList, ("integer").toList, .jint (Int.ofNat 18), none,
    ("core").toList, ("d").toList⟩

/-- C8 witness: the theorem instantiated at `install_umask` with value 18. -/
theorem c8_umask_octal_hint_witness :
    generate_hint c8Demo = .ok (simple_hint ('0' :: padZeros3 (pyOctStr 18)))
    ∧ generate_hint c8Demo = .ok (("<0022>").toList) := by
  have h := c8_umask_octal_hint c8Demo 18 rfl (by decide) rfl
  exact ⟨h.1, h.2 rfl⟩

/-- Completion-offering branch shape required by the spec for a restricted
option: declare `descr`, then a `_wanted ... compadd` invocation listing
exactly the given choice values (each shell-quoted). -/
def wantedBranch (o : OptEntry) (cs : List Str) : Str :=
  ("    descr=").toList ++ quote o.description ++
    ("\n    _wanted -V build-option-values expl ").toList ++
    ("$\x7b(qqq)descr//\\%/%%\x7d").toList ++
    quote ((" (").toList ++ o.type ++ (")").toList) ++
    (" compadd - ").toList ++
    List.intercalate ((" ").toList) (cs.map quote)

/-- Message-only branch shape required by the spec for an unrestricted
option: declare `descr`, then a `_message` invocation offering nothing. -/
def messageBranch (o : OptEntry) : Str :=
  ("    descr=").toList ++ quote o.description ++
    ("\n    _message -e build-option-values ").toList ++
    ("$\x7b(qqq)descr//\\%/%%\x7d").toList ++
    quote ((" (").toList ++ o.type ++ (")").toList)

/-- C5: the choices tri-state is preserved: a present (possibly empty) choice
list yields the `_wanted`/`compadd` branch listing exactly those values, an
absent choice list yields the message-only branch, and a combo option always
has a present choice list (empty when none are declared), so it is never
treated as unrestricted. -/
theorem c5_tristate_preserved (o : OptEntry) :
    (∀ cs, generate_choices o = some cs →
      generate_compadd_choices o = wantedBranch o cs)
    ∧ (generate_choices o = none →
      generate_compadd_choices o = messageBranch o)
    ∧ (o.type = ("combo").toList →
      generate_choices o = some (o.choices.getD [])) := by
  refine ⟨?_, ?_, ?_⟩
  · intro cs h
    simp only [generate_compadd_choices, h, wantedBranch, List.intercalate,
      List.intersperse_cons₂, List.intersperse_single, List.flatten_cons,
      List.flatten_nil, List.append_assoc, List.append_nil, List.cons_append,
      List.nil_append]
    rfl
  · intro h
    simp only [generate_compadd_choices, h, messageBranch, List.intercalate,
      List.intersperse_cons₂, List.intersperse_single, List.flatten_cons,
      List.flatten_nil, List.append_assoc, List.append_nil, List.cons_append,
      List.nil_append]
    rfl
  · intro h
    rw [generate_choices, if_pos h]

/-- Combo demo record with no declared choices for the C5 witness. -/
def c5Demo : OptEntry :=
  ⟨("c").toList, ("combo").toList, .jstr [], none, ("user").toList,
    ("d").toList⟩

/-- C5 witness: a combo record without declared choices gets the empty choice
list and still the completion-offering branch. -/
theorem c5_tristate_preserved_witness :
    generate_choices c5Demo = some []
    ∧ generate_compadd_choices c5Demo = wantedBranch c5Demo [] := by
  have h := c5_tristate_preserved c5Demo
  have hc : generate_choices c5Demo = some [] := h.2.2 rfl
  exact ⟨hc, h.1 [] hc⟩

/-- One `_message` statement per diagnostic line, each line prefixed with
`cannot complete: ` and shell-quoted. -/
def diagnosticBody (lines : List Str) : Str :=
  List.intercalate (("\n").toList)
    (lines.map (fun l =>
      ("  _message ").toList ++ quote (("cannot complete: ").toList ++ pyRstrip l)))

/-- Stand-in output required by the spec on failure: definitions for both the
name-completion and the value-completion function whose bodies consist solely
of the diagnostic `_message` statements, followed by the final newline. -/
def specFailureStub (lines : List Str) : Str :=
  ("__meson_project_buildoptions () \x7b\n").toList ++ diagnosticBody lines ++
    ("\n\x7d\n__meson_project_buildoption_choices () \x7b\n").toList ++
    diagnosticBody lines ++ ("\n\x7d\n").toList

theorem emit_eq_specFailureStub (e : Exc) :
    emit_message_on_exception e = specFailureStub e.lines := by
  simp only [emit_message_on_exception, emit_message_on_exception.newline,
    specFailureStub, diagnosticBody, List.intercalate, List.intersperse_cons₂,
    List.intersperse_single, List.flatten_cons, List.flatten_nil,
    List.append_assoc, List.append_nil, List.cons_append, List.nil_append,
    List.map_map, Function.comp]
  rfl

/-- C4: whenever any stage of the pipeline (argument handling, input reading,
JSON parsing, or generation) fails, the program's entire standard output is
the two stand-in function definitions whose bodies are only the quoted
diagnostic `_message` statements (one per line of the failure text), no
successful output is emitted, and the exit status is 1. -/
theorem c4_failure_reporter (world : InputSource → Except Exc (List OptEntry))
    (argv : List Str) (e : Exc) (h : mainPipeline world argv = .error e) :
    mainModel world argv = (specFailureStub e.lines, 1) := by
  simp only [mainModel, h, emit_eq_specFailureStub]

/-- A world whose input parses to an empty record list, for the C4 witness. -/
def c4World : InputSource → Except Exc (List OptEntry) := fun _ => .ok []

/-- C4 witness: with no arguments the pipeline raises the usage `ValueError`
and the program prints exactly the diagnostic stub pair and exits 1. -/
theorem c4_failure_reporter_witness :
    mainPipeline c4World [] =
      .error (valueError (("completion mode is not specified").toList))
    ∧ mainModel c4World [] =
      (specFailureStub
        (valueError (("completion mode is not specified").toList)).lines, 1) :=
  ⟨rfl, c4_failure_reporter c4World [] _ rfl⟩

/-- C9: for every argument vector whose scanned mode is missing or different
from `buildoptions`, `_getopts` raises a usage failure, and the program's
output and exit status 1 do not depend on the input stream at all (the same
result for every world), so the input is never read. -/
theorem c9_usage_failure (argv : List Str)
    (h : ¬ (scanArgs argv).mode = some (("buildoptions").toList)) :
    (∃ e, _getopts argv = .error e)
    ∧ ∀ w₁ w₂ : InputSource → Except Exc (List OptEntry),
        mainModel w₁ argv = mainModel w₂ argv
        ∧ (mainModel w₁ argv).2 = 1 := by
  have herr : ∃ e, _getopts argv = .error e := by
    cases hm : (scanArgs argv).mode with
    | none =>
      exact ⟨valueError (("completion mode is not specified").toList),
        by simp [_getopts, hm]⟩
    | some m =>
      have hmne : ¬ m = ("buildoptions").toList := fun hc => h (by rw [hm, hc])
      refine ⟨valueError (("unknown completion mode: ").toList ++ m), ?_⟩
      simp only [_getopts, hm]
      rw [if_neg hmne]
  obtain ⟨e, he⟩ := herr
  have hp : ∀ w : InputSource → Except Exc (List OptEntry),
      mainPipeline w argv = .error e := by
    intro w
    rw [mainPipeline, he]
  refine ⟨⟨e, he⟩, ?_⟩
  intro w₁ w₂
  constructor
  · rw [mainModel, mainModel, hp w₁, hp w₂]
  · rw [mainModel, hp w₁]

/-- Argument vector with an unknown mode flag, for the C9 witness. -/
def c9Argv : List Str := [("--frobnicate").toList]

/-- World that would fail on read, for the C9 witness. -/
def c9WorldA : InputSource → Except Exc (List OptEntry) :=
  fun _ => .error (typeError (("stream is closed").toList))

/-- World that would succeed on read, for the C9 witness. -/
def c9WorldB : InputSource → Except Exc (List OptEntry) := fun _ => .ok []

/-- C9 witness: with the unknown mode flag the usage failure is raised and the
result is identical for two different worlds, with exit status 1. -/
theorem c9_usage_failure_witness :
    (∃ e, _getopts c9Argv = .error e)
    ∧ mainModel c9WorldA c9Argv = mainModel c9WorldB c9Argv
    ∧ (mainModel c9WorldA c9Argv).2 = 1 :=
  ⟨(c9_usage_failure c9Argv (by decide)).1,
   (c9_usage_failure c9Argv (by decide)).2 c9WorldA c9WorldB⟩

theorem user_first_keys (d : List (Str × List Str))
    (hnd : (d.map Prod.fst).Nodup) :
    (user_first d).map Prod.fst =
      if ("user").toList ∈ d.map Prod.fst then
        ("user").toList ::
          (d.map Prod.fst).filter (fun s => !(s == ("user").toList))
      else d.map Prod.fst := by
  rw [user_first]
  cases hl : List.lookup (("user").toList) d with
  | none =>
    rw [if_neg ((lookup_none_iff d _).mp hl)]
  | some u =>
    have hin : ("user").toList ∈ d.map Prod.fst := by
      by_contra hc
      rw [(lookup_none_iff d _).mpr hc] at hl
      cases hl
    rw [if_pos hin, List.map_cons, map_fst_eraseP d _ hnd]

theorem user_first_keys_perm (d : List (Str × List Str))
    (hnd : (d.map Prod.fst).Nodup) :
    ((user_first d).map Prod.fst).Perm (d.map Prod.fst) := by
  rw [user_first_keys d hnd]
  by_cases hin : ("user").toList ∈ d.map Prod.fst
  · rw [if_pos hin]
    exact perm_cons_filter_ne _ _ hnd hin
  · rw [if_neg hin]

/-- C6: in the generated name-completion function the sections are emitted
with `user`, if present, first and all other sections in order of first
appearance of their first member; the reordering neither drops nor duplicates
a section (the emitted key sequence is a permutation of the grouped one). -/
theorem c6_user_first_order (opts : List OptEntry)
    (bs : List (Str × List Str)) (se : List (Str × Str))
    (h : buildTables opts [] [] = .ok (bs, se)) :
    ((user_first bs).map Prod.fst =
      if ("user").toList ∈ firstSeen (opts.map (fun o => o.sect)) then
        ("user").toList ::
          (firstSeen (opts.map (fun o => o.sect))).filter
            (fun s => !(s == ("user").toList))
      else firstSeen (opts.map (fun o => o.sect)))
    ∧ ((user_first bs).map Prod.fst).Perm (bs.map Prod.fst) := by
  have hkeys : bs.map Prod.fst = firstSeen (opts.map (fun o => o.sect)) :=
    buildTables_sections opts [] [] bs se h
  have hnd : (bs.map Prod.fst).Nodup := by
    rw [hkeys]
    exact firstSeenFrom_nodup _ [] List.nodup_nil
  constructor
  · rw [user_first_keys bs hnd, hkeys]
  · exact user_first_keys_perm bs hnd

/-- Input whose `user` section appears second, for the C6 witness. -/
def c6Opts : List OptEntry :=
  [⟨("b").toList, ("boolean").toList, .jbool true, none, ("core").toList,
     ("d1").toList⟩,
   ⟨("u").toList, ("boolean").toList, .jbool false, none, ("user").toList,
     ("d2").toList⟩]

/-- The `by_section` table built from `c6Opts`. -/
def c6Bs : List (Str × List Str) :=
  ((buildTables c6Opts [] []).toOption.getD ([], [])).1

/-- The `switch_entries` table built from `c6Opts`. -/
def c6Se : List (Str × Str) :=
  ((buildTables c6Opts [] []).toOption.getD ([], [])).2

/-- C6 witness: the theorem instantiated at a concrete input where `user`
appears after `core` in the records. -/
theorem c6_user_first_order_witness :
    ((user_first c6Bs).map Prod.fst =
      if ("user").toList ∈ firstSeen (c6Opts.map (fun o => o.sect)) then
        ("user").toList ::
          (firstSeen (c6Opts.map (fun o => o.sect))).filter
            (fun s => !(s == ("user").toList))
      else firstSeen (c6Opts.map (fun o => o.sect)))
    ∧ ((user_first c6Bs).map Prod.fst).Perm (c6Bs.map Prod.fst) :=
  c6_user_first_order c6Opts c6Bs c6Se rfl

/-- C10: for every input, the name-completion side keeps one describe spec per
record occurrence (each section array's length equals the number of records
with that section), while the value-completion side keeps exactly one branch
per distinct name (keys in first-seen order) whose body is built from the last
occurrence of that name in input order. -/
theorem c10_duplicate_names (opts : List OptEntry)
    (bs : List (Str × List Str)) (se : List (Str × Str))
    (h : buildTables opts [] [] = .ok (bs, se)) :
    (∀ sec, ((List.lookup sec bs).getD []).length =
      (opts.filter (fun o => o.sect == sec)).length)
    ∧ se.map Prod.fst = firstSeen (opts.map (fun o => o.name))
    ∧ (∀ nm o, (opts.filter (fun o => o.name == nm)).getLast? = some o →
        List.lookup nm se = some (switchEntry o)) := by
  refine ⟨?_, ?_, ?_⟩
  · intro sec
    have hc := buildTables_sect_counts opts [] [] bs se h sec
    simpa using hc
  · exact buildTables_names opts [] [] bs se h
  · intro nm o hlast
    have hl := buildTables_lookup_name opts [] [] bs se h nm
    rw [hlast] at hl
    exact hl

/-- Input with two records of the same name, for the C10 witness. -/
def c10Opts : List OptEntry :=
  [⟨("x").toList, ("boolean").toList, .jbool true, none, ("user").toList,
     ("first").toList⟩,
   ⟨("x").toList, ("combo").toList, .jstr (("y").toList),
     some [("y").toList], ("core").toList, ("second").toList⟩]

/-- The second (last) record named `x` in `c10Opts`. -/
def c10Last : OptEntry :=
  ⟨("x").toList, ("combo").toList, .jstr (("y").toList),
    some [("y").toList], ("core").toList, ("second").toList⟩

/-- The `by_section` table built from `c10Opts`. -/
def c10Bs : List (Str × List Str) :=
  ((buildTables c10Opts [] []).toOption.getD ([], [])).1

/-- The `switch_entries` table built from `c10Opts`. -/
def c10Se : List (Str × Str) :=
  ((buildTables c10Opts [] []).toOption.getD ([], [])).2

/-- C10 witness: with two records both named `x`, each of the two sections
holds one spec, there is a single branch keyed `x`, and it is built from the
second (last) occurrence. -/
theorem c10_duplicate_names_witness :
    ((List.lookup (("user").toList) c10Bs).getD []).length =
      (c10Opts.filter (fun o => o.sect == ("user").toList)).length
    ∧ c10Se.map Prod.fst = firstSeen (c10Opts.map (fun o => o.name))
    ∧ List.lookup (("x").toList) c10Se = some (switchEntry c10Last) := by
  have h := c10_duplicate_names c10Opts c10Bs c10Se rfl
  exact ⟨h.1 (("user").toList), h.2.1, h.2.2 (("x").toList) c10Last (by decide)⟩

/-- Substring test over `Str` (Python's `needle in hay`). -/
def containsSub (needle : Str) : Str → Bool
  | [] => needle.isEmpty
  | c :: rest => needle.isPrefixOf (c :: rest) || containsSub needle rest

/-- Option record whose name contains shell command-substitution syntax, the
C1 failing input. -/
def injOpt : OptEntry :=
  ⟨("a$(b)").toList, ("string").toList, .jstr [], none, ("user").toList,
    ("d").toList⟩

/-- The successfully generated output for the C1 failing input. -/
def injOut : Str := (complete_build_options [injOpt]).toOption.getD []

/-- C1, code bug: generation succeeds on a record whose name contains shell
syntax, and the value-completion `case` branch embeds that name raw between
plain double quotes: the output contains the pattern line with the unaltered
`a$(b)` (command substitution active inside double quotes when the `case`
executes under `eval`), while neither `quote` of the name nor `zsh_tag` of the
name occurs anywhere in the output, contradicting the claim that every
untrusted fragment is quoted or sanitized before being embedded. -/
theorem c1_injection_name_unquoted :
    (complete_build_options [injOpt]).isOk = true
    ∧ containsSub (("  (\"a$(b)\")").toList) injOut = true
    ∧ containsSub (quote (("a$(b)").toList)) injOut = false
    ∧ containsSub (zsh_tag (("a$(b)").toList)) injOut = false
    ∧ ¬ quote (("a$(b)").toList) = ("a$(b)").toList
    ∧ ¬ zsh_tag (("a$(b)").toList) = ("a$(b)").toList :=
  ⟨rfl, rfl, rfl, rfl, by decide, by decide⟩
